import Mathlib

/-!
Shallow embedding of `src/lib/jsonlDir.ts` (the mutation protocol and the
operations built on the batched scan engine).

Records are values of an abstract type `T`.  A backing file is its sequence of
records in file order, `List T`.  Modelled from the spec (the collaborators
`createJsonlFile` and `temporaryFileTask` are not part of the source tree):
the Batched Scan Engine's `read(visitor)` presents the file as a list of
batches `bs : List (List T)` whose concatenation `bs.flatten` is the file's
record sequence, invoking the visitor on each batch in order and stopping as
soon as a visitor returns `true`; `append`/`appendText` extend the file on the
right preserving existing content and input order; `count` is the number of
records; the temporary-file task provides a fresh (empty) temporary file and
the final `rename` atomically replaces the original file's content with the
temporary file's content.  I/O failures are injected through `readOk i` /
`appendOk i` flags saying whether the read of batch `i` (from the original
file) and the append of batch `i` (into the temporary file) succeed; a failing
call raises, and the error propagates (spec §6: error transparency).
-/

namespace JsonlDb

variable {T : Type}

/-- The `for` loop inside `findOne`'s visitor (src/lib/jsonlDir.ts line 34):
walks one batch, and at the first record satisfying `matchFn` records it and
returns `true` (stop) immediately, leaving the rest of the batch unvisited.
First component: the record found in this batch, if any.  Second component:
the trace of records the predicate was invoked on, in order. -/
def findOneBatch (matchFn : T → Bool) : List T → Option T × List T
  | [] => (none, [])
  | r :: rs =>
    if matchFn r then (some r, [r])
    else
      let rest := findOneBatch matchFn rs
      (rest.1, r :: rest.2)

/-- `findOne` (src/lib/jsonlDir.ts lines 30-45) run over the batches of the
backing file: the scan stops at the batch whose visitor returned `true`
(the batch containing the first match; for a matchless batch the visitor
returns `canEnd`, which is `false` in every reachable state since a
`true`-returning visitor already stopped the scan).  Returns the found record
and the full predicate-invocation trace. -/
def findOneRun (matchFn : T → Bool) : List (List T) → Option T × List T
  | [] => (none, [])
  | b :: bs =>
    match findOneBatch matchFn b with
    | (some r, inv) => (some r, inv)
    | (none, inv) =>
      let rest := findOneRun matchFn bs
      (rest.1, inv ++ rest.2)

/-- The record returned by `findOne`. -/
def findOne (matchFn : T → Bool) (bs : List (List T)) : Option T :=
  (findOneRun matchFn bs).1

/-- The records `findOne` invoked its predicate on, in order. -/
def findOneInvoked (matchFn : T → Bool) (bs : List (List T)) : List T :=
  (findOneRun matchFn bs).2

/-- `find` (src/lib/jsonlDir.ts lines 46-57): scans to completion (visitor
always returns `false`), collecting every record satisfying `matchFn` in file
order. -/
def findRun (matchFn : T → Bool) : List (List T) → List T
  | [] => []
  | b :: bs => b.filter matchFn ++ findRun matchFn bs

/-- Modelled from the spec: `count()` returns the total number of records of
the backing file (src/lib/jsonlDir.ts lines 136-138 delegate to the scan
engine's `count`). -/
def count (file : List T) : Nat := file.length

/-- `add` (src/lib/jsonlDir.ts lines 12-29) for an array argument, on a
backing file: an empty array returns the empty sequence before any write;
otherwise the records are accepted and, when `mutateDb` is true, appended to
the file in input order.  Returns the accepted records and the resulting
file. -/
def addList (data : List T) (mutateDb : Bool) (file : List T) : List T × List T :=
  if data.isEmpty then ([], file)
  else (data, if mutateDb then file ++ data else file)

/-- Transient `update` (src/lib/jsonlDir.ts lines 84-93): scans to completion,
collecting `updateFn r` for every record `r` satisfying `matchFn`, in file
order; no write is issued. -/
def updateTransientRun (matchFn : T → Bool) (updateFn : T → T) :
    List (List T) → List T
  | [] => []
  | b :: bs => (b.filter matchFn).map updateFn ++ updateTransientRun matchFn updateFn bs

/-- Transient `update` as a state transformer: the returned records together
with the backing file after the call (the code path issues no write, so the
file is the scanned content itself). -/
def updateTransient (matchFn : T → Bool) (updateFn : T → T)
    (bs : List (List T)) : List T × List T :=
  (updateTransientRun matchFn updateFn bs, bs.flatten)

/-- Transient `delete` (src/lib/jsonlDir.ts lines 123-133): scans to
completion, collecting every record that does not satisfy `matchFn` (the kept
records), in file order; no write is issued. -/
def deleteTransientRun (matchFn : T → Bool) : List (List T) → List T
  | [] => []
  | b :: bs => b.filter (fun r => !matchFn r) ++ deleteTransientRun matchFn bs

/-- Transient `delete` as a state transformer: kept records and the unchanged
backing file. -/
def deleteTransient (matchFn : T → Bool) (bs : List (List T)) : List T × List T :=
  (deleteTransientRun matchFn bs, bs.flatten)

/-- Outcome of a durable `update`: the operation's result (updated records, or
the propagated I/O error), the final content of the original backing file's
path, and whether the atomic rename was executed. -/
structure UpdateOut (T : Type) where
  result : Except Unit (List T)
  file : List T
  renamed : Bool
  deriving Repr

/-- Outcome of a durable `delete`: result (kept records or the propagated I/O
error), final content of the original path, the trace of batches passed to the
temporary file's `append`, and whether the rename was executed. -/
structure DeleteOut (T : Type) where
  result : Except Unit (List T)
  file : List T
  appends : List (List T)
  renamed : Bool
  deriving Repr

/-- The durable `update` scan (src/lib/jsonlDir.ts lines 64-77): reads each
batch `i` (failing if `readOk i` is false), replaces each matching record `r`
by `updateFn r` (accumulating the replacement into the result), and appends
the whole processed batch to the temporary file (failing if `appendOk i` is
false).  On success returns the accumulated updated records and the temporary
file's content. -/
def updateLoop (matchFn : T → Bool) (updateFn : T → T)
    (readOk appendOk : Nat → Bool) :
    Nat → List T → List T → List (List T) → Except Unit (List T × List T)
  | _, upd, temp, [] => .ok (upd, temp)
  | i, upd, temp, b :: bs =>
    if readOk i then
      let processed := b.map fun r => if matchFn r then updateFn r else r
      let upd2 := upd ++ (b.filter matchFn).map updateFn
      if appendOk i then
        updateLoop matchFn updateFn readOk appendOk (i + 1) upd2 (temp ++ processed) bs
      else .error ()
    else .error ()

/-- Durable `update` (src/lib/jsonlDir.ts lines 60-82): runs the rewrite into
the temporary file; only after the whole scan completes is the rename executed,
replacing the original path's content with the temporary file; on any failure
the error propagates, the rename is never reached, and the original file is
untouched (writes during the loop target only the temporary path). -/
def updateDurable (matchFn : T → Bool) (updateFn : T → T)
    (readOk appendOk : Nat → Bool) (bs : List (List T)) : UpdateOut T :=
  match updateLoop matchFn updateFn readOk appendOk 0 [] [] bs with
  | .ok (upd, temp) => ⟨.ok upd, temp, true⟩
  | .error e => ⟨.error e, bs.flatten, false⟩

/-- The durable `delete` scan (src/lib/jsonlDir.ts lines 103-117): reads each
batch `i`, filters it to the records not satisfying `matchFn` (accumulating
them into the kept result), and appends the filtered batch to the temporary
file only when it is non-empty (the `keptBatch.length > 0` guard), recording
each append in a trace. -/
def deleteLoop (matchFn : T → Bool) (readOk appendOk : Nat → Bool) :
    Nat → List T → List T → List (List T) → List (List T) →
    Except Unit (List T × List T × List (List T))
  | _, kept, temp, apps, [] => .ok (kept, temp, apps)
  | i, kept, temp, apps, b :: bs =>
    if readOk i then
      let keptBatch := b.filter fun r => !matchFn r
      let kept2 := kept ++ keptBatch
      if keptBatch.length > 0 then
        if appendOk i then
          deleteLoop matchFn readOk appendOk (i + 1) kept2 (temp ++ keptBatch)
            (apps ++ [keptBatch]) bs
        else .error ()
      else
        deleteLoop matchFn readOk appendOk (i + 1) kept2 temp apps bs
    else .error ()

/-- Durable `delete` (src/lib/jsonlDir.ts lines 96-122): rewrite into the
temporary file, then the atomic rename; on failure the rename is never reached
and the original file is untouched. -/
def deleteDurable (matchFn : T → Bool) (readOk appendOk : Nat → Bool)
    (bs : List (List T)) : DeleteOut T :=
  match deleteLoop matchFn readOk appendOk 0 [] [] [] bs with
  | .ok (kept, temp, apps) => ⟨.ok kept, temp, apps, true⟩
  | .error e => ⟨.error e, bs.flatten, [], false⟩

/-- The variant of the durable `delete` scan that appends every filtered batch
unconditionally, with no `keptBatch.length > 0` guard — the comparison point
for the spec's remark that skipping the empty append is a pure optimization. -/
def deleteLoopAll (matchFn : T → Bool) (readOk appendOk : Nat → Bool) :
    Nat → List T → List T → List (List T) → List (List T) →
    Except Unit (List T × List T × List (List T))
  | _, kept, temp, apps, [] => .ok (kept, temp, apps)
  | i, kept, temp, apps, b :: bs =>
    if readOk i then
      let keptBatch := b.filter fun r => !matchFn r
      let kept2 := kept ++ keptBatch
      if appendOk i then
        deleteLoopAll matchFn readOk appendOk (i + 1) kept2 (temp ++ keptBatch)
          (apps ++ [keptBatch]) bs
      else .error ()
    else .error ()

/-- Durable `delete` built on the unconditional-append scan. -/
def deleteDurableAll (matchFn : T → Bool) (readOk appendOk : Nat → Bool)
    (bs : List (List T)) : DeleteOut T :=
  match deleteLoopAll matchFn readOk appendOk 0 [] [] [] bs with
  | .ok (kept, temp, apps) => ⟨.ok kept, temp, apps, true⟩
  | .error e => ⟨.error e, bs.flatten, [], false⟩

/-- A JavaScript runtime value, as far as `add`'s input validation
distinguishes them (src/lib/jsonlDir.ts lines 12-23 and 144-146). -/
inductive JsValue : Type where
  | null : JsValue
  | undef : JsValue
  | bool : Bool → JsValue
  | num : Int → JsValue
  | str : String → JsValue
  | arr : List JsValue → JsValue
  | obj : List (String × JsValue) → JsValue

/-- `Array.isArray(o)`. -/
def isArrayJs : JsValue → Bool
  | .arr _ => true
  | _ => false

/-- `typeof o === "object"`: true for `null`, arrays and objects. -/
def typeofIsObject : JsValue → Bool
  | .null => true
  | .arr _ => true
  | .obj _ => true
  | _ => false

/-- `o === null`. -/
def isNullJs : JsValue → Bool
  | .null => true
  | _ => false

/-- `isSingleJson` (src/lib/jsonlDir.ts lines 144-146):
`typeof o === "object" && o !== null && !Array.isArray(o)`. -/
def isSingleJson (o : JsValue) : Bool :=
  typeofIsObject o && !isNullJs o && !isArrayJs o

/-- `add` (src/lib/jsonlDir.ts lines 12-29) on an arbitrary runtime value:
an array is accepted (empty arrays return `[]` before the `mutateDb` branch,
so no write happens and no file is created); a single plain object is wrapped
into a one-element sequence; anything else throws before any write.  Returns
the operation's result and the backing file after the call. -/
def addJs (data : JsValue) (mutateDb : Bool) (file : List JsValue) :
    Except Unit (List JsValue) × List JsValue :=
  match data with
  | .arr xs =>
    if xs.isEmpty then (.ok [], file)
    else (.ok xs, if mutateDb then file ++ xs else file)
  | d =>
    if isSingleJson d then (.ok [d], if mutateDb then file ++ [d] else file)
    else (.error (), file)

/-- Specification-side description of the records a short-circuiting scan
visits: every record up to and including the first one satisfying `p`, or the
whole list when none does. -/
def scannedPrefix (p : T → Bool) : List T → List T
  | [] => []
  | r :: rs => if p r then [r] else r :: scannedPrefix p rs

theorem scannedPrefix_eq (p : T → Bool) (l : List T) :
    scannedPrefix p l =
      l.takeWhile (fun r => !p r) ++ (l.dropWhile (fun r => !p r)).take 1 := by
  induction l with
  | nil => rfl
  | cons r rs ih =>
    by_cases h : p r = true <;>
      simp [scannedPrefix, List.takeWhile_cons, List.dropWhile_cons, h, ih]

theorem scannedPrefix_append_of_none (p : T → Bool) (b l : List T)
    (hf : b.find? p = none) :
    scannedPrefix p (b ++ l) = b ++ scannedPrefix p l := by
  induction b with
  | nil => rfl
  | cons r rs ih =>
    rw [List.find?_cons] at hf
    cases h : p r with
    | true => simp [h] at hf
    | false => simp only [h] at hf; simp [scannedPrefix, h, ih hf]

theorem scannedPrefix_append_of_some (p : T → Bool) (b l : List T) (r : T)
    (hf : b.find? p = some r) :
    scannedPrefix p (b ++ l) = scannedPrefix p b := by
  induction b with
  | nil => simp at hf
  | cons x xs ih =>
    rw [List.find?_cons] at hf
    cases h : p x with
    | true => simp [scannedPrefix, h]
    | false => simp only [h] at hf; simp [scannedPrefix, h, ih hf]

theorem scannedPrefix_of_none (p : T → Bool) (b : List T)
    (hf : b.find? p = none) : scannedPrefix p b = b := by
  have h := scannedPrefix_append_of_none p b [] hf
  simpa [scannedPrefix] using h

theorem findOneBatch_eq (p : T → Bool) (b : List T) :
    findOneBatch p b = (b.find? p, scannedPrefix p b) := by
  induction b with
  | nil => rfl
  | cons r rs ih =>
    by_cases h : p r = true <;>
      simp [findOneBatch, scannedPrefix, List.find?_cons, h, ih]

theorem findOneRun_eq (p : T → Bool) (bs : List (List T)) :
    findOneRun p bs = (bs.flatten.find? p, scannedPrefix p bs.flatten) := by
  induction bs with
  | nil => rfl
  | cons b bs ih =>
    simp only [findOneRun, findOneBatch_eq, List.flatten_cons]
    cases hf : b.find? p with
    | some r =>
      simp [List.find?_append, hf, scannedPrefix_append_of_some p b bs.flatten r hf]
    | none =>
      simp [List.find?_append, hf, Option.or,
        scannedPrefix_append_of_none p b bs.flatten hf,
        scannedPrefix_of_none p b hf, ih]

theorem findRun_eq (q : T → Bool) (bs : List (List T)) :
    findRun q bs = bs.flatten.filter q := by
  induction bs with
  | nil => rfl
  | cons b bs ih => simp [findRun, List.filter_append, ih]

theorem updateTransientRun_eq (p : T → Bool) (t : T → T) (bs : List (List T)) :
    updateTransientRun p t bs = (bs.flatten.filter p).map t := by
  induction bs with
  | nil => rfl
  | cons b bs ih => simp [updateTransientRun, List.filter_append, ih]

theorem deleteTransientRun_eq (p : T → Bool) (bs : List (List T)) :
    deleteTransientRun p bs = bs.flatten.filter fun r => !p r := by
  induction bs with
  | nil => rfl
  | cons b bs ih => simp [deleteTransientRun, List.filter_append, ih]

theorem updateLoop_ok (p : T → Bool) (t : T → T) (i : Nat)
    (upd temp : List T) (bs : List (List T)) :
    updateLoop p t (fun _ => true) (fun _ => true) i upd temp bs =
      .ok (upd ++ (bs.flatten.filter p).map t,
           temp ++ bs.flatten.map fun r => if p r then t r else r) := by
  induction bs generalizing i upd temp with
  | nil => simp [updateLoop]
  | cons b bs ih =>
    simp [updateLoop, ih, List.filter_append, List.map_append]

theorem deleteLoop_ok (p : T → Bool) (i : Nat) (kept temp : List T)
    (apps bs : List (List T)) :
    deleteLoop p (fun _ => true) (fun _ => true) i kept temp apps bs =
      .ok (kept ++ bs.flatten.filter (fun r => !p r),
           temp ++ bs.flatten.filter (fun r => !p r),
           apps ++ (bs.map fun b => b.filter fun r => !p r).filter
             fun kb => !kb.isEmpty) := by
  induction bs generalizing i kept temp apps with
  | nil => simp [deleteLoop]
  | cons b bs ih =>
    by_cases h : (b.filter fun r => !p r).length > 0
    · have hne : ((b.filter fun r => !p r).isEmpty) = false := by
        cases he : ((b.filter fun r => !p r).isEmpty) with
        | true => rw [List.isEmpty_iff] at he; simp [he] at h
        | false => rfl
      simp [deleteLoop, h, ih, List.filter_append, List.filter_cons, hne]
    · have he : (b.filter fun r => !p r) = [] := by
        rw [← List.length_eq_zero]
        omega
      simp [deleteLoop, h, ih, List.filter_append, List.filter_cons, he]

theorem deleteLoopAll_ok (p : T → Bool) (i : Nat) (kept temp : List T)
    (apps bs : List (List T)) :
    deleteLoopAll p (fun _ => true) (fun _ => true) i kept temp apps bs =
      .ok (kept ++ bs.flatten.filter (fun r => !p r),
           temp ++ bs.flatten.filter (fun r => !p r),
           apps ++ bs.map fun b => b.filter fun r => !p r) := by
  induction bs generalizing i kept temp apps with
  | nil => simp [deleteLoopAll]
  | cons b bs ih =>
    simp [deleteLoopAll, ih, List.filter_append]

/-- Claim C1: for durable `update` and `delete`, on any run in which the scan
of the original file or an append into the temporary file fails, the error
propagates to the caller, the rename is never executed, and the original
backing file's content is unchanged. -/
theorem claim_C1_rewrite_failure_atomic (p p' : T → Bool) (t : T → T)
    (readOk appendOk readOk' appendOk' : Nat → Bool) (bs bs' : List (List T))
    (hu : (updateDurable p t readOk appendOk bs).result = .error ())
    (hd : (deleteDurable p' readOk' appendOk' bs').result = .error ()) :
    (updateDurable p t readOk appendOk bs).file = bs.flatten ∧
    (updateDurable p t readOk appendOk bs).renamed = false ∧
    (deleteDurable p' readOk' appendOk' bs').file = bs'.flatten ∧
    (deleteDurable p' readOk' appendOk' bs').renamed = false := by
  cases h : updateLoop p t readOk appendOk 0 [] [] bs with
  | ok v =>
    obtain ⟨upd, temp⟩ := v
    simp [updateDurable, h] at hu
  | error e =>
    cases h' : deleteLoop p' readOk' appendOk' 0 [] [] [] bs' with
    | ok v =>
      obtain ⟨kept, temp, apps⟩ := v
      simp [deleteDurable, h'] at hd
    | error e' =>
      simp [updateDurable, deleteDurable, h, h']

/-- Claim C1 witness: a run whose first read fails (update) and a run whose
first append fails (delete) both leave the original file unchanged and never
rename. -/
theorem claim_C1_witness :
    (updateDurable (fun _ : Nat => true) id (fun _ => false) (fun _ => true)
      [[1]]).file = [[1]].flatten ∧
    (updateDurable (fun _ : Nat => true) id (fun _ => false) (fun _ => true)
      [[1]]).renamed = false ∧
    (deleteDurable (fun _ : Nat => false) (fun _ => true) (fun _ => false)
      [[2]]).file = [[2]].flatten ∧
    (deleteDurable (fun _ : Nat => false) (fun _ => true) (fun _ => false)
      [[2]]).renamed = false :=
  claim_C1_rewrite_failure_atomic (fun _ => true) (fun _ => false) id
    (fun _ => false) (fun _ => true) (fun _ => true) (fun _ => false)
    [[1]] [[2]] rfl rfl

/-- Claim C2: durable `update` scans the original file to completion and
succeeds, returning the transformed matching records in file order, and
leaves the backing file with exactly the same number of records in the same
positions: each matching record replaced by its transform, each non-matching
record unchanged — the pointwise map of the original content. -/
theorem claim_C2_update_durable (p : T → Bool) (t : T → T)
    (bs : List (List T)) :
    updateDurable p t (fun _ => true) (fun _ => true) bs =
      ⟨.ok ((bs.flatten.filter p).map t),
       bs.flatten.map fun r => if p r then t r else r, true⟩ := by
  simp [updateDurable, updateLoop_ok]

/-- Claim C3 counterexample: with backing file `[1, 2]` in a single batch and
predicate `n == 1`, `findOne` finds `1` but never invokes the predicate on
`2`, the other record of the very batch containing the match — so the claim
that every record of that batch is evaluated before stopping is false. -/
theorem claim_C3_counterexample :
    findOne (fun n : Nat => n == 1) [[1, 2]] = some 1 ∧
    findOneInvoked (fun n : Nat => n == 1) [[1, 2]] = [1] ∧
    2 ∉ findOneInvoked (fun n : Nat => n == 1) [[1, 2]] := by
  refine ⟨rfl, rfl, ?_⟩
  decide

/-- Claim C3 (amended): when `findOne` encounters its first matching record it
stops evaluating immediately: the predicate is invoked exactly on the records
preceding the first match plus that match itself (item-granular stopping), and
on no record after the match, whether in the same batch or a later one; with
no match the predicate is invoked on every record.  The invocation trace
depends only on the file's record sequence, not on the batching. -/
theorem claim_C3_amended (p : T → Bool) (bs : List (List T)) :
    findOneInvoked p bs = scannedPrefix p bs.flatten ∧
    findOneInvoked p bs =
      bs.flatten.takeWhile (fun r => !p r) ++
        (bs.flatten.dropWhile (fun r => !p r)).take 1 := by
  refine ⟨?_, ?_⟩ <;> simp [findOneInvoked, findOneRun_eq, scannedPrefix_eq]

/-- Claim C4: `findOne` returns the first record in file order that satisfies
the predicate, and the not-found indicator `none` (rather than an error) when
no record matches; the result is `bs.flatten.find? p`, so it depends only on
the file's record sequence, not on how records are grouped into batches. -/
theorem claim_C4_findOne_first_match (p : T → Bool) (bs : List (List T)) :
    findOne p bs = bs.flatten.find? p := by
  simp [findOne, findOneRun_eq]

/-- Claim C5: `delete` returns, in both durable and transient mode, exactly
the records that do not satisfy the predicate (the kept set, not the deleted
set) in file order; in transient mode the backing file is untouched. -/
theorem claim_C5_delete_kept (p : T → Bool) (bs : List (List T)) :
    (deleteDurable p (fun _ => true) (fun _ => true) bs).result =
      .ok (bs.flatten.filter fun r => !p r) ∧
    deleteTransient p bs = (bs.flatten.filter (fun r => !p r), bs.flatten) := by
  constructor
  · simp [deleteDurable, deleteLoop_ok]
  · simp [deleteTransient, deleteTransientRun_eq]

/-- Claim C6 counterexample: on an entity store whose backing file already
contains the record `0`, durable `add [1]` followed by `find` with an
always-true predicate returns `[0, 1]`, not the added sequence `[1]`. -/
theorem claim_C6_counterexample :
    findRun (fun _ => true) [(addList [1] true [0]).2] = [0, 1] ∧
    ([0, 1] : List Nat) ≠ [1] := by
  refine ⟨rfl, ?_⟩
  decide

/-- Claim C6 (amended): starting from an empty (or absent) backing file,
durable `add R` followed by `find` with an always-true predicate returns
exactly `R` in the same order, for any batching of the resulting file. -/
theorem claim_C6_roundtrip_from_empty (R : List T) (bs : List (List T))
    (h : bs.flatten = (addList R true []).2) :
    findRun (fun _ => true) bs = R := by
  rw [findRun_eq, h]
  by_cases hR : R.isEmpty
  · rw [List.isEmpty_iff] at hR
    simp [addList, hR]
  · simp [addList, hR, List.filter_true]

/-- Claim C6 (amended) witness: round trip of `[1, 2]` through an empty
store. -/
theorem claim_C6_witness :
    findRun (fun _ => true) [[1, 2]] = ([1, 2] : List Nat) :=
  claim_C6_roundtrip_from_empty [1, 2] [[1, 2]] rfl

/-- Claim C7: transient `update` and `delete` leave the backing file
unchanged; in particular `count` and the result of any subsequent `find` are
the same before and after the call. -/
theorem claim_C7_transient_frame (p : T → Bool) (t : T → T)
    (bs : List (List T)) :
    (updateTransient p t bs).2 = bs.flatten ∧
    (deleteTransient p bs).2 = bs.flatten ∧
    count (updateTransient p t bs).2 = count bs.flatten ∧
    count (deleteTransient p bs).2 = count bs.flatten ∧
    (∀ q : T → Bool,
      findRun q [(updateTransient p t bs).2] = findRun q [bs.flatten]) ∧
    (∀ q : T → Bool,
      findRun q [(deleteTransient p bs).2] = findRun q [bs.flatten]) := by
  simp [updateTransient, deleteTransient]

/-- Claim C8: skipping the append call for a batch with zero kept records is a
pure optimization: durable `delete` with the guard and the variant that
appends every filtered batch unconditionally agree on the returned kept set,
on success (both succeed), on the final backing file content, and on the
rename outcome, for every content, predicate and batch partitioning. -/
theorem claim_C8_skip_empty_append_equiv (p : T → Bool) (bs : List (List T)) :
    (deleteDurable p (fun _ => true) (fun _ => true) bs).result =
      (deleteDurableAll p (fun _ => true) (fun _ => true) bs).result ∧
    (deleteDurable p (fun _ => true) (fun _ => true) bs).file =
      (deleteDurableAll p (fun _ => true) (fun _ => true) bs).file ∧
    (deleteDurable p (fun _ => true) (fun _ => true) bs).renamed =
      (deleteDurableAll p (fun _ => true) (fun _ => true) bs).renamed := by
  simp [deleteDurable, deleteDurableAll, deleteLoop_ok, deleteLoopAll_ok]

/-- Claim C9: `add` raises `InvalidInput` exactly when its argument is neither
an array nor a single plain object, and in that case the backing file is
untouched; an empty array is not an error: it returns the empty sequence and
performs no write, even in durable mode. -/
theorem claim_C9_add_validation (d : JsValue) (m : Bool)
    (file : List JsValue) :
    ((addJs d m file).1 = .error () ↔
      isArrayJs d = false ∧ isSingleJson d = false) ∧
    ((addJs d m file).1 = .error () → (addJs d m file).2 = file) ∧
    addJs (.arr []) m file = (.ok [], file) := by
  refine ⟨?_, ?_, rfl⟩ <;>
    cases d <;>
      simp [addJs, isArrayJs, isSingleJson, typeofIsObject, isNullJs] <;>
        split <;> simp

/-- Claim C9 witness: `add null` in durable mode fails with the input error
and leaves the file unchanged. -/
theorem claim_C9_witness :
    (addJs .null true [JsValue.obj []]).2 = [JsValue.obj []] :=
  (claim_C9_add_validation .null true [JsValue.obj []]).2.1 rfl

/-- Claim C10: on a non-empty backing file in which every record matches the
predicate, durable `delete` issues zero appends to the temporary file over the
whole scan, still executes the atomic rename of that never-written temporary
path onto the original path, and returns the empty kept set. -/
theorem claim_C10_delete_all_match (p : T → Bool) (bs : List (List T))
    (_hne : bs.flatten ≠ []) (h : ∀ r ∈ bs.flatten, p r = true) :
    (deleteDurable p (fun _ => true) (fun _ => true) bs).appends = [] ∧
    (deleteDurable p (fun _ => true) (fun _ => true) bs).renamed = true ∧
    (deleteDurable p (fun _ => true) (fun _ => true) bs).result = .ok [] := by
  have hf : bs.flatten.filter (fun r => !p r) = [] := by
    rw [List.filter_eq_nil_iff]
    intro a ha
    simp [h a ha]
  have hmap : ∀ b ∈ bs, b.filter (fun r => !p r) = [] := by
    intro b hb
    rw [List.filter_eq_nil_iff]
    intro a ha
    simp [h a (List.mem_flatten.mpr ⟨b, hb, ha⟩)]
  have happs : (bs.map fun b => b.filter fun r => !p r).filter
      (fun kb => !kb.isEmpty) = [] := by
    rw [List.filter_eq_nil_iff]
    intro kb hkb
    obtain ⟨b, hb, rfl⟩ := List.mem_map.mp hkb
    simp [hmap b hb]
  simp [deleteDurable, deleteLoop_ok, hf, happs]

/-- Claim C10 witness: deleting everything from the two-batch file
`[[1], [2]]` issues no append, renames, and returns the empty kept set. -/
theorem claim_C10_witness :
    (deleteDurable (fun _ : Nat => true) (fun _ => true) (fun _ => true)
      [[1], [2]]).appends = [] ∧
    (deleteDurable (fun _ : Nat => true) (fun _ => true) (fun _ => true)
      [[1], [2]]).renamed = true ∧
    (deleteDurable (fun _ : Nat => true) (fun _ => true) (fun _ => true)
      [[1], [2]]).result = .ok [] :=
  claim_C10_delete_all_match (fun _ => true) [[1], [2]] (by decide)
    (by decide)

end JsonlDb
